import Mathlib

/-!
Verification of the `FastEuclidean` metric-space adapter.

Shallow embedding of `src/src/lib.rs`: a wrapper `FastEuclidean<T>` that
equips a point type with a Euclidean distance computed with the relaxed
("fast-math") intrinsics `fsub_fast`, `fmul_fast`, `fadd_fast` followed by
`sqrt`, plus pass-through serialization and iterator forwarding.

Modelling choices:
* Finite `f64` values are modelled as rationals (`ℚ`); the relaxed
  intrinsics carry no fixed rounding semantics (reassociation is explicitly
  permitted), so they are modelled as exact rational arithmetic, the
  idealized value-level semantics the spec's "up to floating-point rounding
  tolerance" phrasing refers to.
* `f64::sqrt` is the arithmetic square root, modelled as `Real.sqrt` on the
  rational accumulator cast to `ℝ`.
* The generic wrapper `FastEuclidean<T>` is a one-field structure over an
  arbitrary type `T`; the `Metric` impl (which requires iteration yielding
  `f64` elements) is modelled on `FastEuclidean (List ℚ)`.
* Rust iterators over sequences are modelled as the lists of elements they
  yield; serde serializers/deserializers for the inner type are abstract
  functions `T → W` and `W → Except E T`.
-/

/-- Model of the `fsub_fast` intrinsic on finite doubles: exact subtraction. -/
def fsub_fast (x y : ℚ) : ℚ := x - y

/-- Model of the `fmul_fast` intrinsic on finite doubles: exact multiplication. -/
def fmul_fast (x y : ℚ) : ℚ := x * y

/-- Model of the `fadd_fast` intrinsic on finite doubles: exact addition. -/
def fadd_fast (x y : ℚ) : ℚ := x + y

/-- Rust's `pub struct FastEuclidean<T>(T);` — wrapper struct holding exactly
one value of the point representation `T`. -/
structure FastEuclidean (T : Type) where
  point : T

/-- The constructor `FastEuclidean::new` — wraps the value; the no-NaN/no-Inf
safety precondition is caller-enforced and not checked (no failure path). -/
def FastEuclidean.new {T : Type} (t : T) : FastEuclidean T :=
  ⟨t⟩

/-- The accumulator built by `Metric::distance` before `sqrt`: zip the two
element sequences, map `|(&x, &y)| { let a = fsub_fast(x, y); fmul_fast(a, a) }`,
then `fold(0.0, |acc, v| fadd_fast(acc, v))`. -/
def FastEuclidean.sumSq (a b : FastEuclidean (List ℚ)) : ℚ :=
  ((a.point.zip b.point).map (fun p =>
      let d := fsub_fast p.1 p.2
      fmul_fast d d)).foldl
    (fun acc v => fadd_fast acc v) 0

/-- The method `Metric::distance` for `FastEuclidean<T>`: the square root of
the relaxed sum of squared coordinate differences. -/
noncomputable def FastEuclidean.distance (a b : FastEuclidean (List ℚ)) : ℝ :=
  Real.sqrt ((FastEuclidean.sumSq a b : ℚ) : ℝ)

/-- Reference definition transcribed from the spec's words (for C1): zip the
two element sequences positionally, for each pair `(x, y)` compute
`d = x - y` then `d * d`, left-fold the squared differences with addition
starting from `0.0`, and take the square root of the final accumulator. -/
noncomputable def specDistance (a b : FastEuclidean (List ℚ)) : ℝ :=
  Real.sqrt
    (((List.zipWith (fun x y => (x - y) * (x - y)) a.point b.point).foldl
        (fun acc v => acc + v) 0 : ℚ) : ℝ)

/-- Structural recursion computing the sum of squared differences; used as a
proof-friendly characterisation of the left-fold in `FastEuclidean.sumSq`. -/
def sqDiffSum : List ℚ → List ℚ → ℚ
  | x :: xs, y :: ys => (x - y) * (x - y) + sqDiffSum xs ys
  | _, _ => 0

theorem foldl_sumSq_aux (xs ys : List ℚ) (c : ℚ) :
    ((xs.zip ys).map (fun p =>
        let d := fsub_fast p.1 p.2
        fmul_fast d d)).foldl (fun acc v => fadd_fast acc v) c
      = c + sqDiffSum xs ys := by
  induction xs generalizing ys c with
  | nil => simp [sqDiffSum]
  | cons x xs ih =>
    cases ys with
    | nil => simp [sqDiffSum]
    | cons y ys =>
      simp only [List.zip_cons_cons, List.map_cons, List.foldl_cons]
      rw [ih]
      simp only [sqDiffSum, fadd_fast, fsub_fast, fmul_fast]
      ring

theorem sumSq_eq_sqDiffSum (a b : FastEuclidean (List ℚ)) :
    FastEuclidean.sumSq a b = sqDiffSum a.point b.point := by
  have h := foldl_sumSq_aux a.point b.point 0
  simpa [FastEuclidean.sumSq] using h

theorem foldl_spec_aux (xs ys : List ℚ) (c : ℚ) :
    (List.zipWith (fun x y => (x - y) * (x - y)) xs ys).foldl
        (fun acc v => acc + v) c
      = c + sqDiffSum xs ys := by
  induction xs generalizing ys c with
  | nil => simp [sqDiffSum]
  | cons x xs ih =>
    cases ys with
    | nil => simp [sqDiffSum]
    | cons y ys =>
      simp only [List.zipWith_cons_cons, List.foldl_cons]
      rw [ih]
      simp only [sqDiffSum]
      ring

/-- C1: for every pair of wrapped points `a` and `b`, `distance a b` equals
the spec's reference definition (positional zip, squared differences,
left-fold from `0.0`, square root of the accumulator). -/
theorem distance_eq_specDistance (a b : FastEuclidean (List ℚ)) :
    FastEuclidean.distance a b = specDistance a b := by
  unfold FastEuclidean.distance specDistance
  rw [sumSq_eq_sqDiffSum, foldl_spec_aux, zero_add]

theorem sqDiffSum_take (xs ys : List ℚ) (n : ℕ)
    (h : min xs.length ys.length ≤ n) :
    sqDiffSum (xs.take n) (ys.take n) = sqDiffSum xs ys := by
  induction xs generalizing ys n with
  | nil => cases ys <;> simp [sqDiffSum]
  | cons x xs ih =>
    cases ys with
    | nil => simp [sqDiffSum]
    | cons y ys =>
      cases n with
      | zero =>
        exfalso
        simp only [List.length_cons] at h
        omega
      | succ n =>
        simp only [List.take_succ_cons, sqDiffSum]
        rw [ih]
        simp only [List.length_cons] at h
        omega

/-- C2: when the two wrapped sequences have different lengths, `distance`
silently truncates to the shorter one — it returns the same value as the
distance over only the first `min(len_a, len_b)` positional pairs, and (being
a total function into `ℝ`) it signals no error. -/
theorem distance_truncates_to_shorter (a b : FastEuclidean (List ℚ))
    (h : a.point.length ≠ b.point.length) :
    FastEuclidean.distance a b =
      FastEuclidean.distance
        ⟨a.point.take (min a.point.length b.point.length)⟩
        ⟨b.point.take (min a.point.length b.point.length)⟩ := by
  unfold FastEuclidean.distance
  rw [sumSq_eq_sqDiffSum, sumSq_eq_sqDiffSum]
  rw [sqDiffSum_take a.point b.point _ le_rfl]

/-- C2 witness: two concrete points of lengths 3 and 2. -/
theorem distance_truncates_to_shorter_witness :
    (([1, 2, 3] : List ℚ).length ≠ ([4, 6] : List ℚ).length) ∧
      FastEuclidean.distance ⟨[1, 2, 3]⟩ ⟨[4, 6]⟩ =
        FastEuclidean.distance
          ⟨([1, 2, 3] : List ℚ).take
              (min ([1, 2, 3] : List ℚ).length ([4, 6] : List ℚ).length)⟩
          ⟨([4, 6] : List ℚ).take
              (min ([1, 2, 3] : List ℚ).length ([4, 6] : List ℚ).length)⟩ :=
  ⟨by decide, distance_truncates_to_shorter ⟨[1, 2, 3]⟩ ⟨[4, 6]⟩ (by decide)⟩

theorem sqDiffSum_comm (xs ys : List ℚ) : sqDiffSum xs ys = sqDiffSum ys xs := by
  induction xs generalizing ys with
  | nil => cases ys <;> simp [sqDiffSum]
  | cons x xs ih =>
    cases ys with
    | nil => simp [sqDiffSum]
    | cons y ys =>
      simp only [sqDiffSum]
      rw [ih]
      ring

/-- C3: for wrapped points with equal-length coordinate sequences,
`distance a b = distance b a` — exact symmetry in the idealized-arithmetic
model (so within any floating-point rounding tolerance). -/
theorem distance_comm (a b : FastEuclidean (List ℚ))
    (h : a.point.length = b.point.length) :
    FastEuclidean.distance a b = FastEuclidean.distance b a := by
  unfold FastEuclidean.distance
  rw [sumSq_eq_sqDiffSum, sumSq_eq_sqDiffSum, sqDiffSum_comm]

/-- C3 witness: symmetry at two concrete equal-length points. -/
theorem distance_comm_witness :
    (([1, 2] : List ℚ).length = ([3, 5] : List ℚ).length) ∧
      FastEuclidean.distance ⟨[1, 2]⟩ ⟨[3, 5]⟩ =
        FastEuclidean.distance ⟨[3, 5]⟩ ⟨[1, 2]⟩ :=
  ⟨by decide, distance_comm ⟨[1, 2]⟩ ⟨[3, 5]⟩ (by decide)⟩

/-- C4: `distance a b ≥ 0.0` for every pair of wrapped points (the square
root is the arithmetic, non-negative root). -/
theorem distance_nonneg (a b : FastEuclidean (List ℚ)) :
    0 ≤ FastEuclidean.distance a b :=
  Real.sqrt_nonneg _

theorem sqDiffSum_self (xs : List ℚ) : sqDiffSum xs xs = 0 := by
  induction xs with
  | nil => simp [sqDiffSum]
  | cons x xs ih => simp [sqDiffSum, ih]

/-- C5: `distance a a = 0` exactly for every wrapped point in the
idealized-arithmetic model, hence `≈ 0.0` within any rounding tolerance. -/
theorem distance_self (a : FastEuclidean (List ℚ)) :
    FastEuclidean.distance a a = 0 := by
  unfold FastEuclidean.distance
  rw [sumSq_eq_sqDiffSum, sqDiffSum_self]
  simp

/-- C6: for the 3-dimensional points `(1.0, 2.0, 3.0)` and `(4.0, 6.0, 3.0)`,
the squared differences are 9, 16, 0, the accumulator is 25, and the distance
is exactly 5 in the idealized-arithmetic model. -/
theorem distance_known_value_3d :
    FastEuclidean.distance ⟨[1, 2, 3]⟩ ⟨[4, 6, 3]⟩ = 5 := by
  unfold FastEuclidean.distance
  rw [sumSq_eq_sqDiffSum]
  norm_num [sqDiffSum]
  rw [show (25 : ℝ) = 5 ^ 2 by norm_num, Real.sqrt_sq (by norm_num : (0 : ℝ) ≤ 5)]

theorem sqDiffSum_nil_right (xs : List ℚ) : sqDiffSum xs [] = 0 := by
  cases xs <;> simp [sqDiffSum]

/-- C10: when at least one of the two wrapped sequences is empty, the zip is
empty, the fold returns the initial accumulator `0.0`, and
`distance = sqrt 0 = 0` exactly; no error or special value is produced. -/
theorem distance_empty (a b : FastEuclidean (List ℚ))
    (h : a.point = [] ∨ b.point = []) :
    FastEuclidean.distance a b = 0 := by
  unfold FastEuclidean.distance
  rw [sumSq_eq_sqDiffSum]
  rcases h with h | h <;> rw [h]
  · simp [sqDiffSum]
  · rw [sqDiffSum_nil_right]
    simp

/-- C10 witness: two zero-dimensional points. -/
theorem distance_empty_witness :
    (([] : List ℚ) = [] ∨ ([] : List ℚ) = []) ∧
      FastEuclidean.distance ⟨[]⟩ ⟨[]⟩ = 0 :=
  ⟨Or.inl rfl, distance_empty ⟨[]⟩ ⟨[]⟩ (Or.inl rfl)⟩

/-- The `impl Serialize for FastEuclidean<T>`: `self.0.serialize(serializer)`
— forwards to the inner type's serializer (modelled as `innerSer : T → W`
onto an abstract wire type `W`), emitting no wrapper-level envelope. -/
def FastEuclidean.serialize {T W : Type} (innerSer : T → W)
    (a : FastEuclidean T) : W :=
  innerSer a.point

/-- The `impl Deserialize for FastEuclidean<T>`:
`Ok(FastEuclidean::new(T::deserialize(deserializer)?))` — the inner type's
deserializer (modelled as `innerDe : W → Except E T`) runs first; `?`
propagates its error verbatim, and on success the value is re-wrapped with
the unsafe constructor, with no validation of the result. -/
def FastEuclidean.deserialize {T W E : Type} (innerDe : W → Except E T)
    (w : W) : Except E (FastEuclidean T) :=
  match innerDe w with
  | Except.error e => Except.error e
  | Except.ok t => Except.ok (FastEuclidean.new t)

/-- C7: when the inner type's serialization round-trips, serializing a
wrapped point and deserializing the result succeeds and yields a wrapped
point whose distance to every other point is unchanged. -/
theorem serialize_roundtrip_distance {W E : Type}
    (innerSer : List ℚ → W) (innerDe : W → Except E (List ℚ))
    (hrt : ∀ t, innerDe (innerSer t) = Except.ok t)
    (a : FastEuclidean (List ℚ)) :
    ∃ a2 : FastEuclidean (List ℚ),
      FastEuclidean.deserialize innerDe (FastEuclidean.serialize innerSer a) =
          Except.ok a2 ∧
        ∀ b : FastEuclidean (List ℚ),
          FastEuclidean.distance a2 b = FastEuclidean.distance a b := by
  refine ⟨⟨a.point⟩, ?_, fun b => rfl⟩
  unfold FastEuclidean.deserialize FastEuclidean.serialize
  rw [hrt a.point]
  rfl

/-- C7 witness: the identity wire format on `List ℚ` round-trips, so the
round-trip property holds at a concrete point. -/
theorem serialize_roundtrip_distance_witness :
    ∃ a2 : FastEuclidean (List ℚ),
      FastEuclidean.deserialize (fun w : List ℚ => (Except.ok w : Except Unit (List ℚ)))
          (FastEuclidean.serialize (fun t : List ℚ => t) ⟨[1, 2]⟩) =
          Except.ok a2 ∧
        ∀ b : FastEuclidean (List ℚ),
          FastEuclidean.distance a2 b = FastEuclidean.distance ⟨[1, 2]⟩ b :=
  serialize_roundtrip_distance (fun t => t) (fun w => Except.ok w)
    (fun _ => rfl) ⟨[1, 2]⟩

/-- C8: wrapper deserialization fails exactly when the inner deserialization
fails, propagating the inner error verbatim; on inner success with value `t`
(any `t` whatsoever — no validation of the no-NaN/no-Inf precondition is
possible at the generic wrapper, and none is performed) it returns the value
re-wrapped via the unsafe constructor. -/
theorem deserialize_passthrough {T W E : Type}
    (innerDe : W → Except E T) (w : W) :
    (∀ e : E, FastEuclidean.deserialize innerDe w = Except.error e ↔
        innerDe w = Except.error e) ∧
      ∀ t : T, innerDe w = Except.ok t →
        FastEuclidean.deserialize innerDe w = Except.ok (FastEuclidean.new t) := by
  constructor
  · intro e
    unfold FastEuclidean.deserialize
    cases h : innerDe w <;> simp
  · intro t ht
    unfold FastEuclidean.deserialize
    rw [ht]

/-- C8 witness: the success branch at a concrete inner deserializer. -/
theorem deserialize_passthrough_witness :
    FastEuclidean.deserialize
        (fun _ : Unit => (Except.ok [1] : Except Unit (List ℚ))) () =
      Except.ok (FastEuclidean.new [1]) :=
  (deserialize_passthrough (fun _ : Unit => (Except.ok [1] : Except Unit (List ℚ)))
      ()).2 [1] rfl

/-- The consuming `impl IntoIterator for FastEuclidean<T>`:
`self.0.into_iter()` — the inner type's consuming iteration, modelled by the
element sequence `innerIter t : List α` it yields. -/
def FastEuclidean.intoIter {T α : Type} (innerIter : T → List α)
    (a : FastEuclidean T) : List α :=
  innerIter a.point

/-- The by-reference `impl IntoIterator for &FastEuclidean<T>`:
`self.0.into_iter()` on `&T` — the inner type's by-reference iteration,
modelled by the element sequence `innerRefIter t : List α` it yields. -/
def FastEuclidean.intoIterRef {T α : Type} (innerRefIter : T → List α)
    (a : FastEuclidean T) : List α :=
  innerRefIter a.point

/-- C9: given that the inner type's by-reference iteration yields the same
element sequence as its consuming iteration (true of the sequence types the
wrapper is used with), both wrapper iterations yield exactly the sequence
obtained by iterating the wrapped value directly — nothing is added, dropped
or reordered by the wrapper. -/
theorem intoIter_forwards {T α : Type}
    (innerIter innerRefIter : T → List α)
    (hsame : ∀ t, innerRefIter t = innerIter t)
    (a : FastEuclidean T) :
    FastEuclidean.intoIter innerIter a = innerIter a.point ∧
      FastEuclidean.intoIterRef innerRefIter a = innerIter a.point :=
  ⟨rfl, hsame a.point⟩

/-- C9 witness: at a concrete wrapped list, with list iteration itself as
the inner iteration. -/
theorem intoIter_forwards_witness :
    FastEuclidean.intoIter (fun t : List ℚ => t) ⟨[1, 2, 3]⟩ =
        (⟨[1, 2, 3]⟩ : FastEuclidean (List ℚ)).point ∧
      FastEuclidean.intoIterRef (fun t : List ℚ => t) ⟨[1, 2, 3]⟩ =
        (⟨[1, 2, 3]⟩ : FastEuclidean (List ℚ)).point :=
  intoIter_forwards (fun t => t) (fun t => t) (fun _ => rfl) ⟨[1, 2, 3]⟩
